import Mathlib

/-!
Verification of the PythonGraphRunner reconciliation engine
(`pythongraphrunner/TaskGraph.py`) against its natural-language
specification.

Shallow embedding conventions:
* Python `dict` fields become association lists (`List (String × _)`),
  first match wins on lookup; insertion appends, matching dict order.
* Python `set` fields become duplicate-free lists; `insertSet` models
  `set.add`.  The iteration order of `_discrepantItems` in a pass is the
  list order (Python set order is an implementation detail).
* Exceptions become explicit result values.  Because Python exceptions
  leave already-performed mutations in place, the fallible operations
  return the post-mutation state together with an optional error
  (`TaskGraph × Option TGError`, or the `PassResult` sum for a whole
  reconciliation pass).
* `networkx.shortest_path` is modelled by an executable breadth-first
  search (`bfs`) returning `Option (List String)`; `none` stands for the
  `NetworkXNoPath` / `NodeNotFound` exceptions.
* The unbounded Python `while` loop in `fixItems` is given explicit
  fuel; `LoopOut.fuelOut` marks fuel exhaustion and is never identified
  with any real outcome of the code.
* Python list indexing `path[idx]` (which accepts negative indices and
  raises `IndexError` out of range) is modelled by `pyGet`.
-/

namespace PGR

/-- The error outcomes of the engine, one constructor per Python
exception site: `ValueError` in `addEdge`/`addItem`/`removeItem`/
`updateItemStates`, the `ValueError` in `TaskEdge.__call__`, the
`networkx` no-path exception in planning, dictionary/attribute
`KeyError`, and list `IndexError`. -/
inductive TGError where
  | unknownState (s : String)
  | duplicateItem (id : String)
  | unknownItem (id : String)
  | invalidTransitionOutput (s : String)
  | noPath
  | keyError
  | indexError
  deriving DecidableEq, Repr

/-- `ItemBase`: current state, desired state, identifier and an opaque
payload (the fields subclasses add). -/
structure Item (P : Type) where
  currState : String
  desiredState : String
  id : String
  payload : P
  deriving DecidableEq, Repr

/-- `ItemBase.isDiscrepant`: current and desired state differ. -/
def Item.isDiscrepant {P : Type} (i : Item P) : Bool :=
  i.currState != i.desiredState

/-- `TaskEdge`: start states, declared end states, declared error end
states, the handler (`runner`), and the edge id.  The handler may
mutate the item (Python mutates in place; here it returns the new item)
and reports the resulting state name. -/
structure TaskEdge (P : Type) where
  startStates : List String
  endStates : List String
  errorEndStates : List String
  runner : Item P → Item P × String
  id : String

/-- `TaskEdge._validOutputs = set(endStates + errorEndStates)`. -/
def TaskEdge.validOutputs {P : Type} (e : TaskEdge P) : List String :=
  e.endStates ++ e.errorEndStates

/-- `TaskEdge.__call__`: run the handler, then validate the reported
state; an unexpected state raises `ValueError`
(`InvalidTransitionOutputError`).  The handler's mutation of the item
has already happened either way. -/
def TaskEdge.call {P : Type} (e : TaskEdge P) (o : Item P) :
    Item P × Except TGError String :=
  let r := e.runner o
  if r.2 ∈ e.validOutputs then (r.1, Except.ok r.2)
  else (r.1, Except.error (TGError.invalidTransitionOutput r.2))

/-- `TaskGraph`: the `networkx.DiGraph` (node list, per-node `edgeObj`
attribute table, directed link list), the declared state set, the item
registry and the discrepant-id set. -/
structure TaskGraph (P : Type) where
  nodes : List String
  nodeAttr : List (String × TaskEdge P)
  links : List (String × String)
  states : List String
  items : List (String × Item P)
  discrepantItems : List String

/-- `TaskGraph.__init__`: everything empty. -/
def TaskGraph.empty {P : Type} : TaskGraph P :=
  ⟨[], [], [], [], [], []⟩

/-- Python `set.add` on a duplicate-free list. -/
def insertSet {α : Type} [DecidableEq α] (l : List α) (a : α) : List α :=
  if a ∈ l then l else l ++ [a]

/-- `self._graph.nodes[n]["edgeObj"]` as a partial lookup: `none` both
when `n` is not a node and when it has no `edgeObj` attribute (both are
`KeyError` in Python). -/
def edgeLookup {P : Type} (g : TaskGraph P) (n : String) :
    Option (TaskEdge P) :=
  g.nodeAttr.lookup n

/-- `nx.DiGraph.add_edge u v`: ensures both endpoints are nodes and
records the directed link. -/
def addLink {P : Type} (g : TaskGraph P) (u v : String) : TaskGraph P :=
  { g with
    nodes := insertSet (insertSet g.nodes u) v,
    links := insertSet g.links (u, v) }

/-- `nx.DiGraph.add_node id (edgeObj := e)`: sets or overwrites the
`edgeObj` attribute. -/
def setAttr {P : Type} (l : List (String × TaskEdge P)) (k : String)
    (e : TaskEdge P) : List (String × TaskEdge P) :=
  if l.any (fun pr => pr.1 == k) then
    l.map (fun pr => if pr.1 == k then (pr.1, e) else pr)
  else l ++ [(k, e)]

/-- `TaskGraph.addState`. -/
def TaskGraph.addState {P : Type} (g : TaskGraph P) (s : String) :
    TaskGraph P :=
  { g with states := insertSet g.states s, nodes := insertSet g.nodes s }

/-- `TaskGraph.addStates`. -/
def TaskGraph.addStates {P : Type} (g : TaskGraph P) (ss : List String) :
    TaskGraph P :=
  ss.foldl TaskGraph.addState g

/-- The mutation part of `addEdge`, reached only after validation:
insert the edge node with its `edgeObj` attribute, the links from every
start state, and the links to every (non-error) end state. -/
def addEdgeIns {P : Type} (g : TaskGraph P) (e : TaskEdge P) :
    TaskGraph P :=
  let g1 : TaskGraph P :=
    { g with nodes := insertSet g.nodes e.id,
             nodeAttr := setAttr g.nodeAttr e.id e }
  let g2 := e.startStates.foldl (fun a s => addLink a s e.id) g1
  e.endStates.foldl (fun a t => addLink a e.id t) g2

/-- `TaskGraph.addEdge`: validate every referenced state first (the
Python `for` loop raises at the first undeclared state, before any
mutation), then perform the insertion. -/
def TaskGraph.addEdge {P : Type} (g : TaskGraph P) (e : TaskEdge P) :
    TaskGraph P × Option TGError :=
  match (e.startStates ++ e.endStates ++ e.errorEndStates).find?
      (fun s => !(g.states.contains s)) with
  | some s => (g, some (TGError.unknownState s))
  | none => (addEdgeIns g e, none)

/-- `TaskGraph.addItem`.  Inserting into `_items` does not change
`_discrepantItems`, so the discrepancy branch reads the original set. -/
def TaskGraph.addItem {P : Type} (g : TaskGraph P) (it : Item P) :
    TaskGraph P × Option TGError :=
  if (g.items.lookup it.id).isSome then
    (g, some (TGError.duplicateItem it.id))
  else if it.isDiscrepant then
    ({ g with items := g.items ++ [(it.id, it)],
              discrepantItems := insertSet g.discrepantItems it.id },
      none)
  else ({ g with items := g.items ++ [(it.id, it)] }, none)

/-- `TaskGraph.removeItem`.  Popping from `_items` does not change
`_discrepantItems`, so the membership branch reads the original set. -/
def TaskGraph.removeItem {P : Type} (g : TaskGraph P) (itemID : String) :
    TaskGraph P × Option TGError :=
  if (g.items.lookup itemID).isSome then
    if itemID ∈ g.discrepantItems then
      ({ g with items := g.items.filter (fun pr => pr.1 != itemID),
                discrepantItems :=
                  g.discrepantItems.filter (fun x => x != itemID) },
        none)
    else
      ({ g with items := g.items.filter (fun pr => pr.1 != itemID) },
        none)
  else (g, some (TGError.unknownItem itemID))

/-- `TaskGraph.getItem`: `none` models the `KeyError` on a missing id. -/
def TaskGraph.getItem {P : Type} (g : TaskGraph P) (itemID : String) :
    Option (Item P) :=
  g.items.lookup itemID

/-- `TaskGraph.getItemIDs`. -/
def TaskGraph.getItemIDs {P : Type} (g : TaskGraph P) : List String :=
  g.items.map Prod.fst

/-- Mutate the dict entry at key `k` in place (Python objects are
aliased by the dict, so `self._items[itemID].field = v` is exactly an
in-place update of the stored value). -/
def replaceAt {β : Type} (l : List (String × β)) (k : String)
    (f : β → β) : List (String × β) :=
  match l with
  | [] => []
  | (a, b) :: tl =>
    (if a == k then (a, f b) else (a, b)) :: replaceAt tl k f

/-- `TaskGraph.updateItemStates`: set both state fields of the stored
item, then recompute discrepant-set membership from `isDiscrepant`. -/
def TaskGraph.updateItemStates {P : Type} (g : TaskGraph P)
    (itemID currState desiredState : String) :
    TaskGraph P × Option TGError :=
  match g.items.lookup itemID with
  | none => (g, some (TGError.unknownItem itemID))
  | some it =>
    if ({ it with
          currState := currState, desiredState := desiredState } :
            Item P).isDiscrepant ∧
        itemID ∉ g.discrepantItems then
      ({ g with
          items := replaceAt g.items itemID (fun it0 =>
            { it0 with
              currState := currState, desiredState := desiredState }),
          discrepantItems := insertSet g.discrepantItems itemID },
        none)
    else if ¬ ({ it with
          currState := currState, desiredState := desiredState } :
            Item P).isDiscrepant = true ∧
        itemID ∈ g.discrepantItems then
      ({ g with
          items := replaceAt g.items itemID (fun it0 =>
            { it0 with
              currState := currState, desiredState := desiredState }),
          discrepantItems :=
            g.discrepantItems.filter (fun x => x != itemID) }, none)
    else
      ({ g with
          items := replaceAt g.items itemID (fun it0 =>
            { it0 with
              currState := currState, desiredState := desiredState }) },
        none)

/-- Out-neighbours of a node, in link insertion order. -/
def successors (links : List (String × String)) (u : String) :
    List String :=
  (links.filter (fun l => l.1 == u)).map Prod.snd

/-- Fuel-bounded breadth-first search over the directed link list.  The
queue holds forward paths (source first); a path whose last node is the
target is returned as soon as it is dequeued.  Models
`nx.shortest_path` for unweighted graphs. -/
def bfsAux (links : List (String × String)) (target : String) :
    Nat → List (List String) → List String → Option (List String)
  | 0, _, _ => none
  | _ + 1, [], _ => none
  | fuel + 1, p :: queue, visited =>
    match p.getLast? with
    | none => bfsAux links target fuel queue visited
    | some cur =>
      if cur = target then some p
      else if cur ∈ visited then bfsAux links target fuel queue visited
      else
        bfsAux links target fuel
          (queue ++ (successors links cur).map (fun v => p ++ [v]))
          (cur :: visited)

/-- `nx.shortest_path g s t` for the unweighted digraph: `none` models
both `NodeNotFound` and `NetworkXNoPath`. -/
def bfs {P : Type} (g : TaskGraph P) (s t : String) :
    Option (List String) :=
  if s ∈ g.nodes ∧ t ∈ g.nodes then
    bfsAux g.links t ((g.nodes.length + 1) * (g.links.length + 1) + 1)
      [[s]] []
  else none

/-- Python list indexing: negative indices count from the end; out of
range is `none` (`IndexError`). -/
def pyGet (l : List String) (i : Int) : Option String :=
  if 0 ≤ i then l.get? i.toNat
  else if (-i).toNat ≤ l.length then l.get? (l.length - (-i).toNat)
  else none

/-- Outcome of the per-item `while` loop of `fixItems`: the final item,
the number of handler invocations performed, and the exception if one
escaped.  `fuelOut` only marks insufficient fuel in the model. -/
inductive LoopOut (P : Type) where
  | ok (item : Item P) (count : Nat)
  | raised (item : Item P) (count : Nat) (e : TGError)
  | fuelOut

/-- The `while idx < len(path) - 1` loop of `fixItems`, verbatim:
look up `path[idx]`, fetch its `edgeObj`, invoke it (which may raise
`InvalidTransitionOutputError`), assign `item.currState`, then either
advance by two (`idx += 2`) when the outcome matches the plan, or on a
deviation perform `idx -= idx + 1` and replan with the *original*
`startState`/`endState` captured before the loop. -/
def fixLoop {P : Type} (g : TaskGraph P) (startState endState : String) :
    Nat → Item P → List String → Int → Nat → LoopOut P
  | 0, _, _, _, _ => LoopOut.fuelOut
  | fuel + 1, item, path, idx, count =>
    if idx < (path.length : Int) - 1 then
      match pyGet path idx with
      | none => LoopOut.raised item count TGError.indexError
      | some node =>
        match edgeLookup g node with
        | none => LoopOut.raised item count TGError.keyError
        | some e =>
          match (TaskEdge.call e item).2 with
          | Except.error err =>
            LoopOut.raised (TaskEdge.call e item).1 (count + 1) err
          | Except.ok outState =>
            match pyGet path (idx + 1) with
            | none =>
              LoopOut.raised
                { (TaskEdge.call e item).1 with currState := outState }
                (count + 1) TGError.indexError
            | some expected =>
              if outState = expected then
                fixLoop g startState endState fuel
                  { (TaskEdge.call e item).1 with
                    currState := outState }
                  path (idx + 2) (count + 1)
              else
                match bfs g startState endState with
                | none =>
                  LoopOut.raised
                    { (TaskEdge.call e item).1 with
                      currState := outState }
                    (count + 1) TGError.noPath
                | some newPath =>
                  fixLoop g startState endState fuel
                    { (TaskEdge.call e item).1 with
                      currState := outState }
                    newPath (idx - (idx + 1)) (count + 1)
    else LoopOut.ok item count

/-- Outcome of a whole `fixItems` pass: final graph, total handler
invocations, and the exception if one escaped the call. -/
inductive PassResult (P : Type) where
  | ok (g : TaskGraph P) (count : Nat)
  | raised (g : TaskGraph P) (count : Nat) (e : TGError)
  | fuelOut

/-- Store the (continuously mutated) item back in the registry; in
Python the dict entry aliases the object, so the write-back is implicit
there. -/
def setItem {P : Type} (g : TaskGraph P) (itemID : String) (it : Item P) :
    TaskGraph P :=
  { g with items := replaceAt g.items itemID (fun _ => it) }

/-- The body of the `for itemID in self._discrepantItems` loop: fetch
the item, plan with `nx.shortest_path` (raising on no path), run the
walk loop from `idx = 1`. -/
def processItem {P : Type} (g : TaskGraph P) (fuel : Nat)
    (itemID : String) (count : Nat) : PassResult P :=
  match g.items.lookup itemID with
  | none => PassResult.raised g count TGError.keyError
  | some item =>
    match bfs g item.currState item.desiredState with
    | none => PassResult.raised g count TGError.noPath
    | some path =>
      match fixLoop g item.currState item.desiredState fuel item path 1
          count with
      | LoopOut.ok item2 c => PassResult.ok (setItem g itemID item2) c
      | LoopOut.raised item2 c e =>
        PassResult.raised (setItem g itemID item2) c e
      | LoopOut.fuelOut => PassResult.fuelOut

/-- Iterate the pass body over the discrepant ids; an exception in one
item's processing propagates immediately (there is no handler in
`fixItems`). -/
def fixItemsAux {P : Type} (fuel : Nat) :
    List String → TaskGraph P → Nat → PassResult P
  | [], g, c => PassResult.ok g c
  | itemID :: rest, g, c =>
    match processItem g fuel itemID c with
    | PassResult.ok g2 c2 => fixItemsAux fuel rest g2 c2
    | PassResult.raised g2 c2 e => PassResult.raised g2 c2 e
    | PassResult.fuelOut => PassResult.fuelOut

/-- `TaskGraph.fixItems`: one reconciliation pass.  `fixItems` never
mutates `_discrepantItems`, so iterating the live set equals iterating
the snapshot taken here. -/
def TaskGraph.fixItems {P : Type} (g : TaskGraph P) (fuel : Nat) :
    PassResult P :=
  fixItemsAux fuel g.discrepantItems g 0

/-- Error component of a pass result. -/
def passErr {P : Type} : PassResult P → Option TGError
  | PassResult.raised _ _ e => some e
  | _ => none

/-- Invocation count of a pass result. -/
def passCount {P : Type} : PassResult P → Option Nat
  | PassResult.ok _ c => some c
  | PassResult.raised _ c _ => some c
  | PassResult.fuelOut => none

/-- Final graph of a pass result. -/
def passGraph {P : Type} : PassResult P → Option (TaskGraph P)
  | PassResult.ok g _ => some g
  | PassResult.raised g _ _ => some g
  | PassResult.fuelOut => none

/-! ### Concrete instances (from `test.py` and the spec's scenarios) -/

/-- The `empty → add → print → done` edges of `test.py`; the `add`
handler increments the payload counter. -/
def exEdge1 : TaskEdge Nat :=
  ⟨["empty"], ["add"], [], fun o => (o, "add"), "e1"⟩

def exEdge2 : TaskEdge Nat :=
  ⟨["add"], ["print"], [], fun o =>
    ({ o with payload := o.payload + 1 }, "print"), "e2"⟩

def exEdge3 : TaskEdge Nat :=
  ⟨["print"], ["done"], [], fun o => (o, "done"), "e3"⟩

def exItem : Item Nat := ⟨"empty", "done", "item1", 0⟩

/-- The `test.py` end-to-end task graph. -/
def exGraph : TaskGraph Nat :=
  ((((((TaskGraph.empty.addStates ["empty", "add", "print", "done"]
    ).addEdge exEdge1).1.addEdge exEdge2).1.addEdge exEdge3).1
    ).addItem exItem).1

/-- The spec's deviation scenario: edge `scan` from `pending` with
declared ends `{ready, degraded}` whose handler returns `degraded`. -/
def devEdge : TaskEdge Unit :=
  ⟨["pending"], ["ready", "degraded"], [], fun o => (o, "degraded"),
    "scan"⟩

def devItem : Item Unit := ⟨"pending", "ready", "it1", ()⟩

/-- A recovery edge from `degraded` back to `ready`, so that replanning
from the deviated state would succeed. -/
def rescueEdge : TaskEdge Unit :=
  ⟨["degraded"], ["ready"], [], fun o => (o, "ready"), "rescue"⟩

def devGraph : TaskGraph Unit :=
  ((((TaskGraph.empty.addStates ["pending", "ready", "degraded"]
    ).addEdge devEdge).1.addEdge rescueEdge).1.addItem devItem).1

/-- Two states without any edge: planning from `a` to `b` fails. -/
def npItem : Item Unit := ⟨"a", "b", "i1", ()⟩

def npGraph : TaskGraph Unit :=
  ((TaskGraph.empty.addStates ["a", "b"]).addItem npItem).1

/-- Like `npGraph` but with a second, fixable item `i2` behind it. -/
def npEdgeCD : TaskEdge Unit :=
  ⟨["c"], ["d"], [], fun o => (o, "d"), "cd"⟩

def npItem2 : Item Unit := ⟨"c", "d", "i2", ()⟩

def npGraph2 : TaskGraph Unit :=
  ((((TaskGraph.empty.addStates ["a", "b", "c", "d"]
    ).addEdge npEdgeCD).1.addItem npItem).1.addItem npItem2).1

/-- A minimal deterministic single-end-state graph: one edge `E` from
`a` to `b`. -/
def detEdge : TaskEdge Unit :=
  ⟨["a"], ["b"], [], fun o => (o, "b"), "E"⟩

def detItem : Item Unit := ⟨"a", "b", "x", ()⟩

def detGraph : TaskGraph Unit :=
  (((TaskGraph.empty.addStates ["a", "b"]).addEdge detEdge).1.addItem
    detItem).1

/-- An edge whose `errorEndStates` overlap its `endStates` (`b` is
declared in both); `addEdge` accepts it. -/
def ovEdge : TaskEdge Unit :=
  ⟨["a"], ["b"], ["b"], fun o => (o, "b"), "E2"⟩

def ovGraph : TaskGraph Unit :=
  TaskGraph.empty.addStates ["a", "b"]

/-- An edge whose handler reports a state outside
`endStates ∪ errorEndStates`. -/
def badEdge : TaskEdge Unit :=
  ⟨["a"], ["b"], [], fun o => (o, "bogus"), "EB"⟩

def badItem : Item Unit := ⟨"a", "b", "y", ()⟩

/-- The graph after one `fixItems` pass on the end-to-end example. -/
def afterFixEx : TaskGraph Nat :=
  (passGraph (exGraph.fixItems 10)).getD TaskGraph.empty

/-- Consecutive elements of `p` are linked in `links` (index form). -/
def chainIdx (links : List (String × String)) (p : List String) : Prop :=
  ∀ i u v, p.get? i = some u → p.get? (i + 1) = some v → (u, v) ∈ links

/-- The registry bookkeeping invariant of §3 of the spec: the
discrepant-id set holds exactly the ids whose stored item is
discrepant. -/
def discOK {P : Type} (g : TaskGraph P) (itemID : String) : Bool :=
  match g.items.lookup itemID with
  | some it => it.isDiscrepant
  | none => false

def registryInv {P : Type} (g : TaskGraph P) : Prop :=
  (∀ itemID ∈ g.discrepantItems, discOK g itemID = true) ∧
  (∀ pr ∈ g.items, pr.2.isDiscrepant = true → pr.1 ∈ g.discrepantItems)

/-- The transition-handler contract of §6 of the spec: handlers may
mutate payload but never the `currState`/`desiredState` bookkeeping. -/
def handlersFrame {P : Type} (g : TaskGraph P) : Prop :=
  ∀ pr ∈ g.nodeAttr, ∀ o : Item P,
    (pr.2.runner o).1.currState = o.currState ∧
    (pr.2.runner o).1.desiredState = o.desiredState

/-- The graph inside a pass result has the same discrepant-id set as
the input graph. -/
def sameDisc {P : Type} (g : TaskGraph P) : PassResult P → Prop
  | PassResult.ok g' _ => g'.discrepantItems = g.discrepantItems
  | PassResult.raised g' _ _ => g'.discrepantItems = g.discrepantItems
  | PassResult.fuelOut => True

/-- The item carried by a loop outcome. -/
def loopItem {P : Type} : LoopOut P → Option (Item P)
  | LoopOut.ok it _ => some it
  | LoopOut.raised it _ _ => some it
  | LoopOut.fuelOut => none

/-! ### Association-list and set helper lemmas -/

theorem lookup_mem {β : Type} {l : List (String × β)} {k : String}
    {v : β} (h : l.lookup k = some v) : (k, v) ∈ l := by
  induction l with
  | nil => simp [List.lookup] at h
  | cons hd tl ih =>
    obtain ⟨a, b⟩ := hd
    rw [List.lookup_cons] at h
    by_cases hk : k = a
    · subst hk
      simp only [beq_self_eq_true] at h
      simp only [Option.some.injEq] at h
      subst h
      exact List.mem_cons_self _ _
    · have hf : (k == a) = false := by simp [hk]
      rw [hf] at h
      exact List.mem_cons_of_mem _ (ih h)

theorem lookup_append {β : Type} (l₁ l₂ : List (String × β))
    (k : String) :
    (l₁ ++ l₂).lookup k =
      match l₁.lookup k with
      | some v => some v
      | none => l₂.lookup k := by
  induction l₁ with
  | nil => simp [List.lookup]
  | cons hd tl ih =>
    obtain ⟨a, b⟩ := hd
    rw [List.cons_append, List.lookup_cons, List.lookup_cons]
    by_cases hk : k = a
    · subst hk
      simp
    · have hf : (k == a) = false := by simp [hk]
      rw [hf]
      exact ih

theorem lookup_filter_self {β : Type} (l : List (String × β))
    (k : String) :
    (l.filter (fun pr => pr.1 != k)).lookup k = none := by
  induction l with
  | nil => rfl
  | cons hd tl ih =>
    obtain ⟨a, b⟩ := hd
    rw [List.filter_cons]
    by_cases hk : a = k
    · simp only [hk, bne_self_eq_false]
      simpa using ih
    · have hp : (((a, b).1 != k) = true) := by simp [hk]
      rw [if_pos hp, List.lookup_cons]
      have hf : (k == a) = false := by simp [Ne.symm hk]
      rw [hf]
      exact ih

theorem lookup_filter_ne {β : Type} {l : List (String × β)}
    {k k' : String} (h : k' ≠ k) :
    (l.filter (fun pr => pr.1 != k)).lookup k' = l.lookup k' := by
  induction l with
  | nil => rfl
  | cons hd tl ih =>
    obtain ⟨a, b⟩ := hd
    rw [List.filter_cons, List.lookup_cons]
    by_cases hk : a = k
    · have hp : (((a, b).1 != k) = true) = False := by simp [hk]
      rw [if_neg (by simp [hk])]
      have hf : (k' == a) = false := by simp [hk ▸ h]
      rw [hf]
      exact ih
    · rw [if_pos (by simp [hk]), List.lookup_cons]
      by_cases hk' : k' = a
      · subst hk'
        simp
      · have hf : (k' == a) = false := by simp [hk']
        rw [hf]
        exact ih

theorem lookup_replaceAt_self {β : Type} {l : List (String × β)}
    {k : String} {v : β} (f : β → β) (h : l.lookup k = some v) :
    (replaceAt l k f).lookup k = some (f v) := by
  induction l with
  | nil => simp [List.lookup] at h
  | cons hd tl ih =>
    obtain ⟨a, b⟩ := hd
    rw [List.lookup_cons] at h
    rw [replaceAt]
    by_cases hk : k = a
    · subst hk
      simp only [beq_self_eq_true, Option.some.injEq] at h
      subst h
      rw [if_pos (show (k == k) = true from by simp)]
      rw [List.lookup_cons]
      simp
    · have hf : (k == a) = false := by simp [hk]
      rw [hf] at h
      rw [if_neg (show ¬((a == k) = true) from by simp [Ne.symm hk])]
      rw [List.lookup_cons, hf]
      exact ih h

theorem lookup_replaceAt_ne {β : Type} {l : List (String × β)}
    {k k' : String} (f : β → β) (h : k' ≠ k) :
    (replaceAt l k f).lookup k' = l.lookup k' := by
  induction l with
  | nil => rfl
  | cons hd tl ih =>
    obtain ⟨a, b⟩ := hd
    rw [replaceAt, List.lookup_cons]
    by_cases hk : a = k
    · rw [if_pos (show (a == k) = true from by simp [hk])]
      rw [List.lookup_cons]
      have hf : (k' == a) = false := by
        simp [show k' ≠ a from fun e => h (e.trans hk)]
      rw [hf]
      exact ih
    · rw [if_neg (show ¬((a == k) = true) from by simp [hk])]
      rw [List.lookup_cons]
      by_cases hk' : k' = a
      · subst hk'
        simp
      · have hf : (k' == a) = false := by simp [hk']
        rw [hf]
        exact ih

theorem mem_insertSet {α : Type} [DecidableEq α] {l : List α}
    {a x : α} : x ∈ insertSet l a ↔ x ∈ l ∨ x = a := by
  unfold insertSet
  split
  · constructor
    · exact Or.inl
    · rintro (h | rfl) <;> assumption
  · simp

theorem mem_insertSet_self {α : Type} [DecidableEq α] (l : List α)
    (a : α) : a ∈ insertSet l a :=
  mem_insertSet.mpr (Or.inr rfl)

theorem mem_insertSet_of_mem {α : Type} [DecidableEq α] {l : List α}
    {x : α} (a : α) (h : x ∈ l) : x ∈ insertSet l a :=
  mem_insertSet.mpr (Or.inl h)

theorem head?_eq_get?_zero {α : Type} (l : List α) :
    l.head? = l.get? 0 := by
  cases l <;> rfl

theorem lookup_append_left {β : Type} {l₁ : List (String × β)}
    (l₂ : List (String × β)) {k : String} {v : β}
    (h : l₁.lookup k = some v) : (l₁ ++ l₂).lookup k = some v := by
  rw [lookup_append, h]

theorem lookup_append_right {β : Type} {l₁ : List (String × β)}
    (l₂ : List (String × β)) {k : String} (h : l₁.lookup k = none) :
    (l₁ ++ l₂).lookup k = l₂.lookup k := by
  rw [lookup_append, h]

theorem mem_replaceAt {β : Type} {l : List (String × β)} {k : String}
    {f : β → β} {pr : String × β} (h : pr ∈ replaceAt l k f) :
    (∃ b, (k, b) ∈ l ∧ pr = (k, f b)) ∨ (pr ∈ l ∧ pr.1 ≠ k) := by
  induction l with
  | nil => simp [replaceAt] at h
  | cons hd tl ih =>
    obtain ⟨a, b⟩ := hd
    rw [replaceAt] at h
    rcases List.mem_cons.mp h with hh | hh
    · by_cases hk : a = k
      · rw [if_pos (by simp [hk])] at hh
        subst hk
        exact Or.inl ⟨b, List.mem_cons_self _ _, hh⟩
      · rw [if_neg (by simp [hk])] at hh
        subst hh
        exact Or.inr ⟨List.mem_cons_self _ _, hk⟩
    · rcases ih hh with ⟨b', hb', rfl⟩ | ⟨hm, hne⟩
      · exact Or.inl ⟨b', List.mem_cons_of_mem _ hb', rfl⟩
      · exact Or.inr ⟨List.mem_cons_of_mem _ hm, hne⟩

theorem discOK_iff {P : Type} (g : TaskGraph P) (itemID : String) :
    discOK g itemID = true ↔
      ∃ v, g.items.lookup itemID = some v ∧ v.isDiscrepant = true := by
  unfold discOK
  rcases h : g.items.lookup itemID with _ | v
  · simp
  · simp

/-! ### Breadth-first-search soundness -/

theorem successors_mem {links : List (String × String)} {u v : String}
    (h : v ∈ successors links u) : (u, v) ∈ links := by
  unfold successors at h
  obtain ⟨⟨a, b⟩, hpr, rfl⟩ := List.mem_map.mp h
  have h2 := List.mem_filter.mp hpr
  have ha : a = u := by simpa using h2.2
  subst ha
  exact h2.1

theorem chainIdx_append_single {links : List (String × String)}
    {p : List String} {u v : String} (hc : chainIdx links p)
    (hl : p.getLast? = some u) (hm : (u, v) ∈ links) :
    chainIdx links (p ++ [v]) := by
  have hlen : 0 < p.length := by
    cases p with
    | nil => cases hl
    | cons x xs => simp
  intro i a b ha hb
  by_cases h1 : i + 1 < p.length
  · rw [List.get?_append (by omega)] at ha
    rw [List.get?_append h1] at hb
    exact hc i a b ha hb
  · by_cases h2 : i + 1 = p.length
    · rw [List.get?_append (by omega)] at ha
      rw [h2, List.get?_concat_length] at hb
      injection hb with hb
      have hi : i = p.length - 1 := by omega
      rw [List.getLast?_eq_get?, ← hi] at hl
      rw [ha] at hl
      injection hl with hl
      rw [hl, ← hb]
      exact hm
    · have hge : p.length + 1 ≤ i + 1 := by omega
      rw [List.get?_eq_none.mpr (by simpa using hge)] at hb
      cases hb

theorem bfsAux_sound (links : List (String × String))
    (target s : String) :
    ∀ (fuel : Nat) (queue : List (List String))
      (visited : List String) (p : List String),
      (∀ q ∈ queue, q.head? = some s ∧ chainIdx links q) →
      bfsAux links target fuel queue visited = some p →
      p.head? = some s ∧ p.getLast? = some target ∧
        chainIdx links p := by
  intro fuel
  induction fuel with
  | zero =>
    intro queue visited p hq h
    rw [bfsAux] at h
    cases h
  | succ fuel ih =>
    intro queue visited p hq h
    cases queue with
    | nil =>
      rw [bfsAux] at h
      cases h
    | cons q0 queue =>
      rw [bfsAux] at h
      rcases hgl : q0.getLast? with _ | cur
      · simp only [hgl] at h
        exact ih _ _ _ (fun q hq2 => hq q (List.mem_cons_of_mem _ hq2)) h
      · simp only [hgl] at h
        by_cases htg : cur = target
        · rw [if_pos htg] at h
          injection h with h
          subst h
          obtain ⟨hh, hch⟩ := hq q0 (List.mem_cons_self _ _)
          exact ⟨hh, htg ▸ hgl, hch⟩
        · rw [if_neg htg] at h
          by_cases hvis : cur ∈ visited
          · rw [if_pos hvis] at h
            exact ih _ _ _
              (fun q hq2 => hq q (List.mem_cons_of_mem _ hq2)) h
          · rw [if_neg hvis] at h
            refine ih _ _ _ ?_ h
            intro q hq2
            rcases List.mem_append.mp hq2 with hq2 | hq2
            · exact hq q (List.mem_cons_of_mem _ hq2)
            · obtain ⟨v, hv2, rfl⟩ := List.mem_map.mp hq2
              obtain ⟨hh, hch⟩ := hq q0 (List.mem_cons_self _ _)
              constructor
              · cases q0 with
                | nil => cases hgl
                | cons x xs => simpa using hh
              · exact chainIdx_append_single hch hgl
                  (successors_mem hv2)

theorem bfs_sound {P : Type} (g : TaskGraph P) (s t : String)
    (p : List String) (h : bfs g s t = some p) :
    p.head? = some s ∧ p.getLast? = some t ∧ chainIdx g.links p := by
  unfold bfs at h
  by_cases hc : s ∈ g.nodes ∧ t ∈ g.nodes
  · rw [if_pos hc] at h
    refine bfsAux_sound g.links t s _ [[s]] [] p ?_ h
    intro q hq
    rcases List.mem_singleton.mp hq with rfl
    refine ⟨rfl, ?_⟩
    intro i u v hu hv
    rw [List.get?_eq_none.mpr (by simp)] at hv
    cases hv
  · rw [if_neg hc] at h
    cases h

/-! ### Graph-insertion lemmas -/

theorem foldl_start_links {P : Type} (w : String) (ss : List String) :
    ∀ (g : TaskGraph P) (x : String × String),
      x ∈ (ss.foldl (fun a s => addLink a s w) g).links ↔
        x ∈ g.links ∨ ∃ s ∈ ss, x = (s, w) := by
  induction ss with
  | nil =>
    intro g x
    simp
  | cons hd tl ih =>
    intro g x
    rw [List.foldl_cons, ih]
    constructor
    · rintro (hx | ⟨s, hs, rfl⟩)
      · rcases mem_insertSet.mp hx with h | rfl
        · exact Or.inl h
        · exact Or.inr ⟨hd, List.mem_cons_self _ _, rfl⟩
      · exact Or.inr ⟨s, List.mem_cons_of_mem _ hs, rfl⟩
    · rintro (hx | ⟨s, hs, rfl⟩)
      · exact Or.inl (mem_insertSet_of_mem _ hx)
      · rcases List.mem_cons.mp hs with rfl | hs
        · exact Or.inl (mem_insertSet_self _ _)
        · exact Or.inr ⟨s, hs, rfl⟩

theorem foldl_end_links {P : Type} (w : String) (ts : List String) :
    ∀ (g : TaskGraph P) (x : String × String),
      x ∈ (ts.foldl (fun a t => addLink a w t) g).links ↔
        x ∈ g.links ∨ ∃ t ∈ ts, x = (w, t) := by
  induction ts with
  | nil =>
    intro g x
    simp
  | cons hd tl ih =>
    intro g x
    rw [List.foldl_cons, ih]
    constructor
    · rintro (hx | ⟨t, ht, rfl⟩)
      · rcases mem_insertSet.mp hx with h | rfl
        · exact Or.inl h
        · exact Or.inr ⟨hd, List.mem_cons_self _ _, rfl⟩
      · exact Or.inr ⟨t, List.mem_cons_of_mem _ ht, rfl⟩
    · rintro (hx | ⟨t, ht, rfl⟩)
      · exact Or.inl (mem_insertSet_of_mem _ hx)
      · rcases List.mem_cons.mp ht with rfl | ht
        · exact Or.inl (mem_insertSet_self _ _)
        · exact Or.inr ⟨t, ht, rfl⟩

theorem foldl_start_nodes {P : Type} (w : String) (ss : List String) :
    ∀ (g : TaskGraph P) (x : String),
      x ∈ g.nodes →
        x ∈ (ss.foldl (fun a s => addLink a s w) g).nodes := by
  induction ss with
  | nil =>
    intro g x h
    exact h
  | cons hd tl ih =>
    intro g x h
    rw [List.foldl_cons]
    exact ih _ _ (mem_insertSet_of_mem _ (mem_insertSet_of_mem _ h))

theorem foldl_end_nodes {P : Type} (w : String) (ts : List String) :
    ∀ (g : TaskGraph P) (x : String),
      x ∈ g.nodes →
        x ∈ (ts.foldl (fun a t => addLink a w t) g).nodes := by
  induction ts with
  | nil =>
    intro g x h
    exact h
  | cons hd tl ih =>
    intro g x h
    rw [List.foldl_cons]
    exact ih _ _ (mem_insertSet_of_mem _ (mem_insertSet_of_mem _ h))

theorem addEdgeIns_links {P : Type} (g : TaskGraph P) (e : TaskEdge P)
    (x : String × String) :
    x ∈ (addEdgeIns g e).links ↔
      x ∈ g.links ∨ (∃ s ∈ e.startStates, x = (s, e.id)) ∨
        ∃ t ∈ e.endStates, x = (e.id, t) := by
  unfold addEdgeIns
  rw [foldl_end_links, foldl_start_links]
  constructor
  · rintro ((hx | hx) | hx)
    · exact Or.inl hx
    · exact Or.inr (Or.inl hx)
    · exact Or.inr (Or.inr hx)
  · rintro (hx | hx | hx)
    · exact Or.inl (Or.inl hx)
    · exact Or.inl (Or.inr hx)
    · exact Or.inr hx

theorem addEdgeIns_id_mem_nodes {P : Type} (g : TaskGraph P)
    (e : TaskEdge P) : e.id ∈ (addEdgeIns g e).nodes := by
  unfold addEdgeIns
  exact foldl_end_nodes _ _ _ _
    (foldl_start_nodes _ _ _ _ (mem_insertSet_self _ _))

/-! ### Claim C5 -/

/-- C5: if any state referenced by an edge (start, end or error end) is
undeclared, `addEdge` fails with `UnknownStateError` and returns the
graph completely unchanged; if every referenced state is declared, the
call succeeds and the edge node with its incident links is inserted. -/
theorem c5_addEdge_atomic {P : Type} (g : TaskGraph P) (e : TaskEdge P) :
    ((∃ s ∈ e.startStates ++ e.endStates ++ e.errorEndStates,
        s ∉ g.states) →
      (g.addEdge e).1 = g ∧
        ∃ s, (g.addEdge e).2 = some (TGError.unknownState s)) ∧
    ((∀ s ∈ e.startStates ++ e.endStates ++ e.errorEndStates,
        s ∈ g.states) →
      (g.addEdge e).2 = none ∧ e.id ∈ (g.addEdge e).1.nodes ∧
        (∀ s ∈ e.startStates, (s, e.id) ∈ (g.addEdge e).1.links) ∧
        (∀ t ∈ e.endStates, (e.id, t) ∈ (g.addEdge e).1.links)) := by
  rcases hf : (e.startStates ++ e.endStates ++ e.errorEndStates).find?
      (fun s => !(g.states.contains s)) with _ | s1
  · have hEq : g.addEdge e = (addEdgeIns g e, none) := by
      unfold TaskGraph.addEdge
      rw [hf]
    constructor
    · rintro ⟨s0, hs0, hbad⟩
      exfalso
      rw [List.find?_eq_none] at hf
      have := hf s0 hs0
      simp at this
      exact hbad this
    · intro _
      rw [hEq]
      refine ⟨rfl, addEdgeIns_id_mem_nodes g e, ?_, ?_⟩
      · intro s hs
        exact (addEdgeIns_links g e _).mpr (Or.inr (Or.inl ⟨s, hs, rfl⟩))
      · intro t ht
        exact (addEdgeIns_links g e _).mpr (Or.inr (Or.inr ⟨t, ht, rfl⟩))
  · have hEq : g.addEdge e = (g, some (TGError.unknownState s1)) := by
      unfold TaskGraph.addEdge
      rw [hf]
    constructor
    · intro _
      rw [hEq]
      exact ⟨rfl, s1, rfl⟩
    · intro hgood
      exfalso
      have hmem := List.mem_of_find?_eq_some hf
      have hp := List.find?_some hf
      simp at hp
      exact hp (hgood s1 hmem)

/-- C5 witness: a concrete failing call (undeclared state `z`) leaves
`ovGraph` untouched, and a concrete valid call inserts its links. -/
theorem c5_addEdge_atomic_witness :
    ((ovGraph.addEdge ⟨["a"], ["z"], [], fun o => (o, "z"), "EZ"⟩).1 =
        ovGraph ∧
      ∃ s, (ovGraph.addEdge
        ⟨["a"], ["z"], [], fun o => (o, "z"), "EZ"⟩).2 =
          some (TGError.unknownState s)) ∧
    ((ovGraph.addEdge detEdge).2 = none ∧
      "E" ∈ (ovGraph.addEdge detEdge).1.nodes ∧
      (∀ s ∈ detEdge.startStates,
        (s, "E") ∈ (ovGraph.addEdge detEdge).1.links) ∧
      (∀ t ∈ detEdge.endStates,
        ("E", t) ∈ (ovGraph.addEdge detEdge).1.links)) :=
  ⟨(c5_addEdge_atomic ovGraph _).1 ⟨"z", by decide, by decide⟩,
    (c5_addEdge_atomic ovGraph detEdge).2 (by decide)⟩

/-! ### Claim C8 -/

/-- C8 counterexample: `addEdge` accepts `ovEdge`, whose state `b` is
declared both as an end state and as an error end state, and the
resulting graph *does* contain a link from the edge node `E2` to the
error end state `b` — refuting the claim that no link from the edge
node to any of its `errorEndStates` exists. -/
theorem c8_error_link_counterexample :
    (ovGraph.addEdge ovEdge).2 = none ∧
    "b" ∈ ovEdge.errorEndStates ∧
    ("E2", "b") ∈ (ovGraph.addEdge ovEdge).1.links := by
  refine ⟨rfl, by decide, by decide⟩

/-- C8 (amended): for every edge accepted by `addEdge` whose id is not
one of its own start states, is not the source of a pre-existing link,
and whose `errorEndStates` are disjoint from its `endStates`, the
resulting graph contains the edge id as a node, a link from each start
state to it and from it to each end state, and no link from the edge
node to any of its error end states. -/
theorem c8_addEdge_links {P : Type} (g : TaskGraph P) (e : TaskEdge P)
    (g' : TaskGraph P) (hsucc : g.addEdge e = (g', none))
    (hself : e.id ∉ e.startStates)
    (hfresh : ∀ x, (e.id, x) ∉ g.links)
    (hdisj : ∀ x ∈ e.errorEndStates, x ∉ e.endStates) :
    e.id ∈ g'.nodes ∧
    (∀ s ∈ e.startStates, (s, e.id) ∈ g'.links) ∧
    (∀ t ∈ e.endStates, (e.id, t) ∈ g'.links) ∧
    (∀ x ∈ e.errorEndStates, (e.id, x) ∉ g'.links) := by
  have hg' : g' = addEdgeIns g e := by
    unfold TaskGraph.addEdge at hsucc
    rcases hf : (e.startStates ++ e.endStates ++ e.errorEndStates).find?
        (fun s => !(g.states.contains s)) with _ | s1
    · rw [hf] at hsucc
      exact (congrArg Prod.fst hsucc).symm
    · rw [hf] at hsucc
      exact absurd (congrArg Prod.snd hsucc) (by simp)
  subst hg'
  refine ⟨addEdgeIns_id_mem_nodes g e, ?_, ?_, ?_⟩
  · intro s hs
    exact (addEdgeIns_links g e _).mpr (Or.inr (Or.inl ⟨s, hs, rfl⟩))
  · intro t ht
    exact (addEdgeIns_links g e _).mpr (Or.inr (Or.inr ⟨t, ht, rfl⟩))
  · intro x hx hlink
    rcases (addEdgeIns_links g e _).mp hlink with h | ⟨s, hs, hpr⟩ |
        ⟨t, ht, hpr⟩
    · exact hfresh x h
    · injection hpr with h1 h2
      rw [← h1] at hs
      exact hself hs
    · injection hpr with h1 h2
      rw [h2] at hx
      exact hdisj _ hx ht

/-- C8 witness: the amended statement at the disjoint edge `detEdge`
over `ovGraph`: no link from `E` to an error end state is present. -/
theorem c8_addEdge_links_witness :
    "E" ∈ (ovGraph.addEdge detEdge).1.nodes ∧
    (∀ s ∈ detEdge.startStates,
      (s, "E") ∈ (ovGraph.addEdge detEdge).1.links) ∧
    (∀ t ∈ detEdge.endStates,
      ("E", t) ∈ (ovGraph.addEdge detEdge).1.links) ∧
    (∀ x ∈ detEdge.errorEndStates,
      ("E", x) ∉ (ovGraph.addEdge detEdge).1.links) :=
  c8_addEdge_links ovGraph detEdge (ovGraph.addEdge detEdge).1 rfl
    (by decide)
    (by
      intro x h
      rw [show ovGraph.links = ([] : List (String × String)) from rfl]
        at h
      exact List.not_mem_nil _ h)
    (by decide)

/-! ### Claim C9 -/

/-- C9: `removeItem` on an id not present raises `UnknownItemError` and
returns the registry unchanged; after a successful `removeItem id`,
`getItem id` finds nothing (the Python `KeyError`, which the spec
abstracts as `UnknownItemError`). -/
theorem c9_remove_then_get {P : Type} (g : TaskGraph P)
    (itemID : String) :
    (g.getItem itemID = none →
      g.removeItem itemID = (g, some (TGError.unknownItem itemID))) ∧
    (∀ g', g.removeItem itemID = (g', none) →
      g'.getItem itemID = none) := by
  constructor
  · intro h
    have h' : ¬(g.items.lookup itemID).isSome = true := by
      have : g.items.lookup itemID = none := h
      simp [this]
    unfold TaskGraph.removeItem
    rw [if_neg h']
  · intro g' h
    have hl : (g.items.lookup itemID).isSome = true := by
      by_contra hc
      unfold TaskGraph.removeItem at h
      rw [if_neg hc] at h
      exact Option.some_ne_none _ (congrArg Prod.snd h)
    unfold TaskGraph.removeItem at h
    rw [if_pos hl] at h
    split at h
    · have hg := congrArg Prod.fst h
      simp only at hg
      rw [← hg]
      exact lookup_filter_self g.items itemID
    · have hg := congrArg Prod.fst h
      simp only at hg
      rw [← hg]
      exact lookup_filter_self g.items itemID

/-- C9 witness: removing an absent id from the end-to-end registry
errors with the registry unchanged; removing `item1` then looking it up
finds nothing. -/
theorem c9_remove_then_get_witness :
    exGraph.removeItem "nosuch" =
      (exGraph, some (TGError.unknownItem "nosuch")) ∧
    (exGraph.removeItem "item1").1.getItem "item1" = none :=
  ⟨(c9_remove_then_get exGraph "nosuch").1 rfl,
    (c9_remove_then_get exGraph "item1").2
      (exGraph.removeItem "item1").1 rfl⟩

/-! ### Claim C4 -/

/-- C4: invoking a transition edge whose handler reports a state
outside `endStates ∪ errorEndStates` raises
`InvalidTransitionOutputError`, and (under the handler contract that
handlers do not touch `currState`) the item's `currState` is unchanged
afterward: the edge itself never writes `currState`, and the walk loop
of `fixItems` raises without performing its `currState` assignment. -/
theorem c4_invalid_output {P : Type} (e : TaskEdge P) (o : Item P)
    (hframe : (e.runner o).1.currState = o.currState)
    (hbad : (e.runner o).2 ∉ e.validOutputs) :
    e.call o = ((e.runner o).1,
      Except.error (TGError.invalidTransitionOutput (e.runner o).2)) ∧
    (e.call o).1.currState = o.currState ∧
    (∀ (g : TaskGraph P) (S D : String) (fuel : Nat)
        (path : List String) (idx : Int) (count : Nat) (node : String),
      pyGet path idx = some node → edgeLookup g node = some e →
      idx < (path.length : Int) - 1 →
      fixLoop g S D (fuel + 1) o path idx count =
        LoopOut.raised (e.runner o).1 (count + 1)
          (TGError.invalidTransitionOutput (e.runner o).2) ∧
      (e.runner o).1.currState = o.currState) := by
  have hcall : e.call o = ((e.runner o).1,
      Except.error (TGError.invalidTransitionOutput (e.runner o).2)) := by
    unfold TaskEdge.call
    rw [if_neg hbad]
  refine ⟨hcall, by rw [hcall]; exact hframe, ?_⟩
  intro g S D fuel path idx count node hpy hlook hlt
  refine ⟨?_, hframe⟩
  rw [fixLoop]
  simp only [if_pos hlt, hpy, hlook, hcall]

/-! ### Claim C6 -/

/-- C6: each registry operation (`addItem`, `removeItem`,
`updateItemStates`), when it succeeds, preserves the invariant that the
discrepant-id set holds exactly the ids of stored items whose current
state differs from their desired state. -/
theorem c6_registry_inv {P : Type} (g : TaskGraph P)
    (hinv : registryInv g) :
    (∀ (it : Item P) (g' : TaskGraph P), g.addItem it = (g', none) →
      registryInv g') ∧
    (∀ (itemID : String) (g' : TaskGraph P),
      g.removeItem itemID = (g', none) → registryInv g') ∧
    (∀ (itemID c d : String) (g' : TaskGraph P),
      g.updateItemStates itemID c d = (g', none) → registryInv g') := by
  obtain ⟨hinv1, hinv2⟩ := hinv
  refine ⟨?_, ?_, ?_⟩
  · intro it g' h
    unfold TaskGraph.addItem at h
    by_cases hl : (g.items.lookup it.id).isSome
    · rw [if_pos hl] at h
      exact absurd (congrArg Prod.snd h) (by simp)
    · rw [if_neg hl] at h
      have hlnone : g.items.lookup it.id = none :=
        Option.not_isSome_iff_eq_none.mp hl
      by_cases hd : it.isDiscrepant = true
      · rw [if_pos hd] at h
        injection h with h1 h2
        subst h1
        constructor
        · intro id hid
          rcases mem_insertSet.mp hid with hid | rfl
          · obtain ⟨v, hv, hvd⟩ := (discOK_iff g id).mp (hinv1 id hid)
            exact (discOK_iff _ id).mpr ⟨v, lookup_append_left _ hv, hvd⟩
          · refine (discOK_iff _ it.id).mpr ⟨it, ?_, hd⟩
            rw [lookup_append_right _ hlnone]
            simp [List.lookup]
        · intro pr hpr hprd
          rcases List.mem_append.mp hpr with hm | hm
          · exact mem_insertSet_of_mem _ (hinv2 pr hm hprd)
          · rcases List.mem_singleton.mp hm with rfl
            exact mem_insertSet_self _ _
      · rw [if_neg hd] at h
        injection h with h1 h2
        subst h1
        constructor
        · intro id hid
          obtain ⟨v, hv, hvd⟩ := (discOK_iff g id).mp (hinv1 id hid)
          exact (discOK_iff _ id).mpr ⟨v, lookup_append_left _ hv, hvd⟩
        · intro pr hpr hprd
          rcases List.mem_append.mp hpr with hm | hm
          · exact hinv2 pr hm hprd
          · rcases List.mem_singleton.mp hm with rfl
            exact absurd hprd hd
  · intro itemID g' h
    unfold TaskGraph.removeItem at h
    by_cases hl : (g.items.lookup itemID).isSome
    · rw [if_pos hl] at h
      by_cases hm : itemID ∈ g.discrepantItems
      · rw [if_pos hm] at h
        injection h with h1 h2
        subst h1
        constructor
        · intro id hid
          have hid' := List.mem_filter.mp hid
          have hidne : id ≠ itemID := by simpa using hid'.2
          obtain ⟨v, hv, hvd⟩ := (discOK_iff g id).mp (hinv1 id hid'.1)
          refine (discOK_iff _ id).mpr ⟨v, ?_, hvd⟩
          rw [lookup_filter_ne hidne]
          exact hv
        · intro pr hpr hprd
          have hpr' := List.mem_filter.mp hpr
          have hne : pr.1 ≠ itemID := by simpa using hpr'.2
          exact List.mem_filter.mpr
            ⟨hinv2 pr hpr'.1 hprd, by simpa using hne⟩
      · rw [if_neg hm] at h
        injection h with h1 h2
        subst h1
        constructor
        · intro id hid
          have hidne : id ≠ itemID := fun e => hm (e ▸ hid)
          obtain ⟨v, hv, hvd⟩ := (discOK_iff g id).mp (hinv1 id hid)
          refine (discOK_iff _ id).mpr ⟨v, ?_, hvd⟩
          rw [lookup_filter_ne hidne]
          exact hv
        · intro pr hpr hprd
          exact hinv2 pr (List.mem_filter.mp hpr).1 hprd
    · rw [if_neg hl] at h
      exact absurd (congrArg Prod.snd h) (by simp)
  · intro itemID c d g' h
    unfold TaskGraph.updateItemStates at h
    rcases hlk : g.items.lookup itemID with _ | it
    · simp only [hlk] at h
      exact absurd (congrArg Prod.snd h) (by simp)
    · simp only [hlk] at h
      have hdisc_any : ∀ it0 : Item P,
          ({ it0 with currState := c, desiredState := d } :
            Item P).isDiscrepant = (c != d) := fun it0 => rfl
      by_cases hc1 : ({ it with currState := c, desiredState := d } :
          Item P).isDiscrepant = true ∧ itemID ∉ g.discrepantItems
      · rw [if_pos hc1] at h
        injection h with h1 h2
        subst h1
        constructor
        · intro id hid
          rcases mem_insertSet.mp hid with hid | rfl
          · have hidne : id ≠ itemID := fun e => hc1.2 (e ▸ hid)
            obtain ⟨v, hv, hvd⟩ := (discOK_iff g id).mp (hinv1 id hid)
            exact (discOK_iff _ id).mpr
              ⟨v, (lookup_replaceAt_ne _ hidne).trans hv, hvd⟩
          · exact (discOK_iff _ id).mpr
              ⟨_, lookup_replaceAt_self _ hlk, hc1.1⟩
        · intro pr hpr hprd
          rcases mem_replaceAt hpr with ⟨b, hb, rfl⟩ | ⟨hm, hne⟩
          · exact mem_insertSet_self _ _
          · exact mem_insertSet_of_mem _ (hinv2 pr hm hprd)
      · rw [if_neg hc1] at h
        by_cases hc2 : ¬ ({ it with currState := c, desiredState := d } :
            Item P).isDiscrepant = true ∧ itemID ∈ g.discrepantItems
        · rw [if_pos hc2] at h
          injection h with h1 h2
          subst h1
          constructor
          · intro id hid
            have hid' := List.mem_filter.mp hid
            have hidne : id ≠ itemID := by simpa using hid'.2
            obtain ⟨v, hv, hvd⟩ :=
              (discOK_iff g id).mp (hinv1 id hid'.1)
            exact (discOK_iff _ id).mpr
              ⟨v, (lookup_replaceAt_ne _ hidne).trans hv, hvd⟩
          · intro pr hpr hprd
            rcases mem_replaceAt hpr with ⟨b, hb, rfl⟩ | ⟨hm, hne⟩
            · exfalso
              apply hc2.1
              rw [hdisc_any it]
              rw [hdisc_any b] at hprd
              exact hprd
            · exact List.mem_filter.mpr
                ⟨hinv2 pr hm hprd, by simpa using hne⟩
        · rw [if_neg hc2] at h
          injection h with h1 h2
          subst h1
          constructor
          · intro id hid
            by_cases hidne : id = itemID
            · subst hidne
              refine (discOK_iff _ id).mpr
                ⟨_, lookup_replaceAt_self _ hlk, ?_⟩
              by_cases hdd : ({ it with
                  currState := c, desiredState := d } :
                    Item P).isDiscrepant = true
              · exact hdd
              · exact absurd ⟨hdd, hid⟩ hc2
            · obtain ⟨v, hv, hvd⟩ := (discOK_iff g id).mp (hinv1 id hid)
              exact (discOK_iff _ id).mpr
                ⟨v, (lookup_replaceAt_ne _ hidne).trans hv, hvd⟩
          · intro pr hpr hprd
            rcases mem_replaceAt hpr with ⟨b, hb, rfl⟩ | ⟨hm, hne⟩
            · by_contra hnm
              apply hc1
              refine ⟨?_, hnm⟩
              rw [hdisc_any it]
              rw [hdisc_any b] at hprd
              exact hprd
            · exact hinv2 pr hm hprd

/-- C6 witness: the invariant holds for the empty registry, is carried
through a discrepant `addItem`, then through an `updateItemStates` that
resolves the discrepancy, then through a `removeItem`. -/
theorem c6_registry_inv_witness :
    registryInv
      (TaskGraph.empty.addItem (⟨"s", "t", "w", ()⟩ : Item Unit)).1 ∧
    registryInv
      ((TaskGraph.empty.addItem
        (⟨"s", "t", "w", ()⟩ : Item Unit)).1.updateItemStates
          "w" "t" "t").1 ∧
    registryInv
      (((TaskGraph.empty.addItem
        (⟨"s", "t", "w", ()⟩ : Item Unit)).1.updateItemStates
          "w" "t" "t").1.removeItem "w").1 := by
  have h1 :=
    (c6_registry_inv TaskGraph.empty (by constructor <;> decide)).1
      ⟨"s", "t", "w", ()⟩
      (TaskGraph.empty.addItem (⟨"s", "t", "w", ()⟩ : Item Unit)).1 rfl
  have h2 := (c6_registry_inv _ h1).2.2 "w" "t" "t"
    ((TaskGraph.empty.addItem
      (⟨"s", "t", "w", ()⟩ : Item Unit)).1.updateItemStates
        "w" "t" "t").1 rfl
  have h3 := (c6_registry_inv _ h2).2.1 "w"
    (((TaskGraph.empty.addItem
      (⟨"s", "t", "w", ()⟩ : Item Unit)).1.updateItemStates
        "w" "t" "t").1.removeItem "w").1 rfl
  exact ⟨h1, h2, h3⟩

/-! ### Pass-level frame lemmas -/

theorem processItem_graph_cases {P : Type} (g : TaskGraph P)
    (fuel : Nat) (itemID : String) (count : Nat) :
    (∃ it2, passGraph (processItem g fuel itemID count) =
      some (setItem g itemID it2)) ∨
    passGraph (processItem g fuel itemID count) = some g ∨
    processItem g fuel itemID count = PassResult.fuelOut := by
  unfold processItem
  split
  · exact Or.inr (Or.inl rfl)
  · split
    · exact Or.inr (Or.inl rfl)
    · split
      · exact Or.inl ⟨_, rfl⟩
      · exact Or.inl ⟨_, rfl⟩
      · exact Or.inr (Or.inr rfl)

theorem processItem_sameDisc {P : Type} (g : TaskGraph P) (fuel : Nat)
    (itemID : String) (count : Nat) :
    sameDisc g (processItem g fuel itemID count) := by
  unfold processItem
  split
  · exact rfl
  · split
    · exact rfl
    · split
      · exact rfl
      · exact rfl
      · exact trivial

theorem processItem_lookup_ne {P : Type} {g g2 : TaskGraph P}
    {fuel : Nat} {itemID : String} {count : Nat}
    (h : passGraph (processItem g fuel itemID count) = some g2)
    (id2 : String) (hne : id2 ≠ itemID) :
    g2.items.lookup id2 = g.items.lookup id2 := by
  rcases processItem_graph_cases g fuel itemID count with ⟨it2, hc⟩ |
      hc | hc
  · rw [hc] at h
    injection h with h
    rw [← h]
    exact lookup_replaceAt_ne _ hne
  · rw [hc] at h
    injection h with h
    rw [← h]
  · rw [hc] at h
    cases h

theorem fixItemsAux_sameDisc {P : Type} (fuel : Nat) :
    ∀ (l : List String) (g : TaskGraph P) (c : Nat),
      sameDisc g (fixItemsAux fuel l g c) := by
  intro l
  induction l with
  | nil =>
    intro g c
    exact rfl
  | cons hd tl ih =>
    intro g c
    unfold fixItemsAux
    have hp := processItem_sameDisc g fuel hd c
    cases hpr : processItem g fuel hd c with
    | ok g2 c2 =>
      rw [hpr] at hp
      have hp2 : g2.discrepantItems = g.discrepantItems := hp
      have h2 := ih g2 c2
      show sameDisc g (fixItemsAux fuel tl g2 c2)
      cases hfx : fixItemsAux fuel tl g2 c2 with
      | ok g3 c3 =>
        rw [hfx] at h2
        have h3 : g3.discrepantItems = g2.discrepantItems := h2
        exact h3.trans hp2
      | raised g3 c3 e3 =>
        rw [hfx] at h2
        have h3 : g3.discrepantItems = g2.discrepantItems := h2
        exact h3.trans hp2
      | fuelOut => exact trivial
    | raised g2 c2 e2 =>
      rw [hpr] at hp
      exact hp
    | fuelOut => exact trivial

/-! ### Claim C7 -/

/-- C7: `fixItems` writes `currState` directly and never touches the
discrepant-id set: whatever the outcome of the pass (normal return or
escaped exception), the final graph's `discrepantItems` equals the
initial one — in particular an item driven to its desired state stays
in the set. -/
theorem c7_fixItems_keeps_disc {P : Type} (g : TaskGraph P) (fuel : Nat)
    (g' : TaskGraph P) (c : Nat) :
    (g.fixItems fuel = PassResult.ok g' c →
      g'.discrepantItems = g.discrepantItems) ∧
    (∀ e, g.fixItems fuel = PassResult.raised g' c e →
      g'.discrepantItems = g.discrepantItems) := by
  have h := fixItemsAux_sameDisc fuel g.discrepantItems g 0
  constructor
  · intro he
    unfold TaskGraph.fixItems at he
    rw [he] at h
    exact h
  · intro e he
    unfold TaskGraph.fixItems at he
    rw [he] at h
    exact h

/-- C7 witness: the end-to-end pass drives `item1` to `done` yet leaves
it in the discrepant set. -/
theorem c7_fixItems_keeps_disc_witness :
    afterFixEx.discrepantItems = exGraph.discrepantItems ∧
    exGraph.discrepantItems = ["item1"] ∧
    (afterFixEx.getItem "item1").map Item.currState = some "done" :=
  ⟨(c7_fixItems_keeps_disc exGraph 10 afterFixEx 3).1 rfl, rfl, rfl⟩

/-! ### Claim C2 -/

/-- C2 counterexample: with a single discrepant item whose desired
state is unreachable, the `NoPathError` raised during planning escapes
the whole `fixItems` call (the pass result is an escaped exception),
refuting the claim that the error does not escape the pass. -/
theorem c2_nopath_escapes_counterexample :
    passErr (npGraph.fixItems 10) = some TGError.noPath := rfl

theorem fixItemsAux_cons {P : Type} (fuel : Nat) (hd : String)
    (tl : List String) (g : TaskGraph P) (c : Nat) :
    fixItemsAux fuel (hd :: tl) g c =
      match processItem g fuel hd c with
      | PassResult.ok g2 c2 => fixItemsAux fuel tl g2 c2
      | PassResult.raised g2 c2 e => PassResult.raised g2 c2 e
      | PassResult.fuelOut => PassResult.fuelOut := rfl

theorem fixItemsAux_append {P : Type} (fuel : Nat) :
    ∀ (l1 l2 : List String) (g g1 : TaskGraph P) (c c1 : Nat),
      fixItemsAux fuel l1 g c = PassResult.ok g1 c1 →
      fixItemsAux fuel (l1 ++ l2) g c = fixItemsAux fuel l2 g1 c1 := by
  intro l1
  induction l1 with
  | nil =>
    intro l2 g g1 c c1 h
    injection h with h1 h2
    subst h1
    subst h2
    rfl
  | cons hd tl ih =>
    intro l2 g g1 c c1 h
    rw [fixItemsAux_cons] at h
    rw [List.cons_append, fixItemsAux_cons]
    rcases hpi : processItem g fuel hd c with ⟨g2, c2⟩ | ⟨g2, c2, e2⟩
        | _
    all_goals simp only [hpi] at h ⊢
    · exact ih _ _ _ _ _ h
    · cases h
    · cases h

theorem fixItemsAux_lookup_outside {P : Type} (fuel : Nat) :
    ∀ (l : List String) (g : TaskGraph P) (c : Nat) (g' : TaskGraph P)
      (c' : Nat),
      fixItemsAux fuel l g c = PassResult.ok g' c' →
      ∀ id, id ∉ l → g'.items.lookup id = g.items.lookup id := by
  intro l
  induction l with
  | nil =>
    intro g c g' c' h id _
    injection h with h1 h2
    rw [← h1]
  | cons hd tl ih =>
    intro g c g' c' h id hnid
    unfold fixItemsAux at h
    rcases hpi : processItem g fuel hd c with ⟨g2, c2⟩ | ⟨g2, c2, e2⟩
        | _
    all_goals simp only [hpi] at h
    · have hne : id ≠ hd := fun e => hnid (e ▸ List.mem_cons_self _ _)
      have hntl : id ∉ tl := fun e => hnid (List.mem_cons_of_mem _ e)
      rw [ih _ _ _ _ h id hntl]
      exact processItem_lookup_ne (by rw [hpi]; rfl) id hne
    · cases h
    · cases h

/-- C2 (amended): when processing of any discrepant item raises
(`NoPathError` at planning time or `InvalidTransitionOutputError` at
invocation time), `fixItems` aborts immediately with that exception:
the pass result is the escaped exception, and every item other than the
failing one is left exactly as it was at the moment of the failure — in
particular every not-yet-processed item of the pass keeps the entry it
had at the start of the pass. -/
theorem c2_error_aborts_pass {P : Type} (g : TaskGraph P) (fuel : Nat)
    (pre : List String) (i : String) (rest : List String)
    (g1 g' : TaskGraph P) (c c' : Nat) (e : TGError)
    (hdisc : g.discrepantItems = pre ++ i :: rest)
    (hpre : fixItemsAux fuel pre g 0 = PassResult.ok g1 c)
    (hproc : processItem g1 fuel i c = PassResult.raised g' c' e) :
    g.fixItems fuel = PassResult.raised g' c' e ∧
    (∀ itemID, itemID ≠ i →
      g'.items.lookup itemID = g1.items.lookup itemID) ∧
    (∀ itemID, itemID ∉ pre → itemID ≠ i →
      g'.items.lookup itemID = g.items.lookup itemID) := by
  have habort : g.fixItems fuel = PassResult.raised g' c' e := by
    unfold TaskGraph.fixItems
    rw [hdisc, fixItemsAux_append fuel pre (i :: rest) g g1 0 c hpre]
    unfold fixItemsAux
    rw [hproc]
  refine ⟨habort, ?_, ?_⟩
  · intro itemID hne
    exact processItem_lookup_ne (by rw [hproc]; rfl) itemID hne
  · intro itemID hnpre hne
    rw [processItem_lookup_ne (by rw [hproc]; rfl) itemID hne]
    exact fixItemsAux_lookup_outside fuel pre g 0 g1 c hpre itemID hnpre

/-- C2 witness: in `npGraph2` the unplannable `i1` is first; the pass
escapes with `NoPathError` and the fixable `i2` is left unprocessed,
with its original registry entry. -/
theorem c2_error_aborts_pass_witness :
    npGraph2.discrepantItems = [] ++ "i1" :: ["i2"] ∧
    npGraph2.fixItems 10 =
      PassResult.raised npGraph2 0 TGError.noPath ∧
    npGraph2.items.lookup "i2" = some npItem2 := by
  have h := c2_error_aborts_pass npGraph2 10 [] "i1" ["i2"] npGraph2
    npGraph2 0 0 TGError.noPath rfl rfl rfl
  exact ⟨rfl, h.1, (h.2.2 "i2" (by simp) (by decide)).trans rfl⟩

/-! ### Claim C1 -/

/-- C1: the deviation-recovery claim fails on the code.  In `devGraph`
the handler of `scan` returns `degraded` while the plan expected
`ready`; replanning from the new state `degraded` to `ready` would
succeed (via `rescue`), but the code replans from the stale original
`startState`, sets the walk index to `-1` (`idx -= idx + 1`, despite
its own comment "set idx to 1"), reads `path[-1]` — the target state
node, which has no `edgeObj` attribute — and crashes with a `KeyError`
after exactly one handler invocation, leaving the item at `degraded`. -/
theorem c1_deviation_crash :
    bfs devGraph "degraded" "ready" =
      some ["degraded", "rescue", "ready"] ∧
    passErr (devGraph.fixItems 10) = some TGError.keyError ∧
    passCount (devGraph.fixItems 10) = some 1 ∧
    ((passGraph (devGraph.fixItems 10)).getD TaskGraph.empty).getItem
        "it1" = some ⟨"degraded", "ready", "it1", ()⟩ :=
  ⟨rfl, rfl, rfl, rfl⟩

theorem call_fst {P : Type} (e : TaskEdge P) (o : Item P) :
    (e.call o).1 = (e.runner o).1 := by
  simp only [TaskEdge.call]
  split <;> rfl

/-- Under the handler contract, the walk loop never changes an item's
`desiredState`, whatever its outcome. -/
theorem fixLoop_desired {P : Type} (g : TaskGraph P) (S D : String)
    (hframe : handlersFrame g) :
    ∀ (fuel : Nat) (item : Item P) (path : List String) (idx : Int)
      (count : Nat) (it2 : Item P),
      loopItem (fixLoop g S D fuel item path idx count) = some it2 →
      it2.desiredState = item.desiredState := by
  intro fuel
  induction fuel with
  | zero =>
    intro item path idx count it2 h
    rw [fixLoop] at h
    cases h
  | succ fuel ih =>
    intro item path idx count it2 h
    rw [fixLoop] at h
    by_cases hidx : idx < (path.length : Int) - 1
    · rw [if_pos hidx] at h
      rcases hpy : pyGet path idx with _ | node
      · simp only [hpy, loopItem, Option.some.injEq] at h
        rw [← h]
      · simp only [hpy] at h
        rcases hek : edgeLookup g node with _ | e
        · simp only [hek, loopItem, Option.some.injEq] at h
          rw [← h]
        · simp only [hek] at h
          have hd1 : (TaskEdge.call e item).1.desiredState =
              item.desiredState := by
            rw [call_fst]
            exact (hframe (node, e) (lookup_mem hek) item).2
          rcases hc2 : (e.call item).2 with err | outState
          · simp only [hc2, loopItem, Option.some.injEq] at h
            rw [← h]
            exact hd1
          · simp only [hc2] at h
            rcases hpy2 : pyGet path (idx + 1) with _ | expected
            · simp only [hpy2, loopItem, Option.some.injEq] at h
              rw [← h]
              exact hd1
            · simp only [hpy2] at h
              by_cases hoe : outState = expected
              · rw [if_pos hoe] at h
                exact (ih _ _ _ _ _ h).trans hd1
              · rw [if_neg hoe] at h
                rcases hbfs : bfs g S D with _ | newPath
                · simp only [hbfs, loopItem, Option.some.injEq] at h
                  rw [← h]
                  exact hd1
                · simp only [hbfs] at h
                  exact (ih _ _ _ _ _ h).trans hd1
    · rw [if_neg hidx] at h
      injection h with h
      rw [← h]

theorem processItem_nodeAttr {P : Type} {g g2 : TaskGraph P}
    {fuel : Nat} {itemID : String} {count : Nat}
    (h : passGraph (processItem g fuel itemID count) = some g2) :
    g2.nodeAttr = g.nodeAttr := by
  rcases processItem_graph_cases g fuel itemID count with ⟨it2, hc⟩ |
      hc | hc
  · rw [hc] at h
    injection h with h
    rw [← h]
    rfl
  · rw [hc] at h
    injection h with h
    rw [← h]
  · rw [hc] at h
    cases h

/-- Under the handler contract, one item's processing preserves every
item's `desiredState` (the processed item's entry is rewritten, all
others are untouched). -/
theorem processItem_desired {P : Type} {g g2 : TaskGraph P}
    {fuel : Nat} {itemID : String} {count : Nat}
    (hframe : handlersFrame g)
    (h : passGraph (processItem g fuel itemID count) = some g2) :
    ∀ id it, g.items.lookup id = some it →
      ∃ it', g2.items.lookup id = some it' ∧
        it'.desiredState = it.desiredState := by
  intro id it hit
  unfold processItem at h
  rcases hlk : g.items.lookup itemID with _ | item
  · simp only [hlk, passGraph, Option.some.injEq] at h
    rw [← h]
    exact ⟨it, hit, rfl⟩
  · simp only [hlk] at h
    rcases hbfs : bfs g item.currState item.desiredState with _ | path
    · simp only [hbfs, passGraph, Option.some.injEq] at h
      rw [← h]
      exact ⟨it, hit, rfl⟩
    · simp only [hbfs] at h
      rcases hfl : fixLoop g item.currState item.desiredState fuel item
          path 1 count with ⟨it2, c2⟩ | ⟨it2, c2, e2⟩ | _
      all_goals simp only [hfl, passGraph, Option.some.injEq] at h
      · rw [← h]
        by_cases hid : id = itemID
        · subst hid
          rw [hit] at hlk
          injection hlk with hlk
          subst hlk
          refine ⟨it2, lookup_replaceAt_self _ hit, ?_⟩
          exact fixLoop_desired g _ _ hframe fuel _ path 1 count it2
            (by rw [hfl]; rfl)
        · exact ⟨it, (lookup_replaceAt_ne _ hid).trans hit, rfl⟩
      · rw [← h]
        by_cases hid : id = itemID
        · subst hid
          rw [hit] at hlk
          injection hlk with hlk
          subst hlk
          refine ⟨it2, lookup_replaceAt_self _ hit, ?_⟩
          exact fixLoop_desired g _ _ hframe fuel _ path 1 count it2
            (by rw [hfl]; rfl)
        · exact ⟨it, (lookup_replaceAt_ne _ hid).trans hit, rfl⟩
      · exact absurd h (by simp)

theorem fixItemsAux_desired {P : Type} (fuel : Nat) :
    ∀ (l : List String) (g : TaskGraph P) (c : Nat) (g' : TaskGraph P),
      handlersFrame g →
      passGraph (fixItemsAux fuel l g c) = some g' →
      (∀ id it, g.items.lookup id = some it →
        ∃ it', g'.items.lookup id = some it' ∧
          it'.desiredState = it.desiredState) ∧
      (∀ id, id ∉ l → g'.items.lookup id = g.items.lookup id) := by
  intro l
  induction l with
  | nil =>
    intro g c g' hframe h
    injection h with h
    rw [← h]
    exact ⟨fun id it hit => ⟨it, hit, rfl⟩, fun id _ => rfl⟩
  | cons hd tl ih =>
    intro g c g' hframe h
    unfold fixItemsAux at h
    rcases hpi : processItem g fuel hd c with ⟨g2, c2⟩ | ⟨g2, c2, e2⟩
        | _
    all_goals simp only [hpi] at h
    · have hpg2 : passGraph (processItem g fuel hd c) = some g2 := by
        rw [hpi]
        rfl
      have hframe2 : handlersFrame g2 := by
        unfold handlersFrame
        rw [processItem_nodeAttr hpg2]
        exact hframe
      obtain ⟨ih1, ih2⟩ := ih g2 c2 g' hframe2 h
      constructor
      · intro id it hit
        obtain ⟨it1, hit1, hd1⟩ := processItem_desired hframe hpg2 id it
          hit
        obtain ⟨it', hit', hd'⟩ := ih1 id it1 hit1
        exact ⟨it', hit', hd'.trans hd1⟩
      · intro id hnid
        have hne : id ≠ hd := fun e => hnid (e ▸ List.mem_cons_self _ _)
        have hntl : id ∉ tl := fun e => hnid (List.mem_cons_of_mem _ e)
        rw [ih2 id hntl]
        exact processItem_lookup_ne hpg2 id hne
    · simp only [passGraph, Option.some.injEq] at h
      rw [← h]
      have hpg2 : passGraph (processItem g fuel hd c) = some g2 := by
        rw [hpi]
        rfl
      constructor
      · exact processItem_desired hframe hpg2
      · intro id hnid
        have hne : id ≠ hd := fun e => hnid (e ▸ List.mem_cons_self _ _)
        exact processItem_lookup_ne hpg2 id hne
    · exact absurd h (by simp [passGraph])

/-! ### Claim C3 -/

/-- On a bipartite state/edge graph whose edges each declare a single
end state and whose handlers deterministically report it, the walk loop
follows the planned path exactly: starting at path position `2j+1` with
`m` real hops left, it performs `m` invocations and ends at the path's
final state. -/
theorem fixLoop_det {P : Type} (g : TaskGraph P) (S D : String)
    (Hdet : ∀ pr ∈ g.nodeAttr, ∃ t, pr.2.endStates = [t] ∧
      ∀ o : Item P, (pr.2.runner o).2 = t)
    (H1 : ∀ pr ∈ g.links, edgeLookup g pr.1 = none →
      (edgeLookup g pr.2).isSome = true)
    (H2 : ∀ pr ∈ g.links, ∀ e, edgeLookup g pr.1 = some e →
      pr.2 ∈ e.endStates ∧ edgeLookup g pr.2 = none)
    (p : List String) (hchain : chainIdx g.links p) :
    ∀ (m j fuel : Nat) (item : Item P) (count : Nat),
      m + 1 ≤ fuel →
      p.length = 2 * (j + m) + 1 →
      p.get? (2 * j) = some item.currState →
      edgeLookup g item.currState = none →
      ∃ it2,
        fixLoop g S D fuel item p ((2 * j + 1 : Nat) : Int) count =
          LoopOut.ok it2 (count + m) ∧
        p.get? (2 * (j + m)) = some it2.currState := by
  intro m
  induction m with
  | zero =>
    intro j fuel item count hfuel hlen hcur hstate
    obtain ⟨fuel', rfl⟩ : ∃ f', fuel = f' + 1 := ⟨fuel - 1, by omega⟩
    have hguard : ¬ ((2 * j + 1 : Nat) : Int) < (p.length : Int) - 1 := by
      rw [hlen]
      push_cast
      omega
    exact ⟨item, by rw [fixLoop, if_neg hguard, Nat.add_zero],
      by simpa using hcur⟩
  | succ m ih =>
    intro j fuel item count hfuel hlen hcur hstate
    obtain ⟨fuel', rfl⟩ : ∃ f', fuel = f' + 1 := ⟨fuel - 1, by omega⟩
    have hlen1 : 2 * j + 1 < p.length := by omega
    have hlen2 : 2 * j + 2 < p.length := by omega
    obtain ⟨en, hen⟩ : ∃ en, p.get? (2 * j + 1) = some en :=
      ⟨p.get ⟨2 * j + 1, hlen1⟩, List.get?_eq_get hlen1⟩
    obtain ⟨v, hv⟩ : ∃ v, p.get? (2 * j + 2) = some v :=
      ⟨p.get ⟨2 * j + 2, hlen2⟩, List.get?_eq_get hlen2⟩
    have hlink1 : (item.currState, en) ∈ g.links :=
      hchain (2 * j) _ _ hcur hen
    have hv' : p.get? (2 * j + 1 + 1) = some v := by
      rw [(by omega : 2 * j + 1 + 1 = 2 * j + 2)]
      exact hv
    have hlink2 : (en, v) ∈ g.links := hchain (2 * j + 1) _ _ hen hv'
    have hios := H1 _ hlink1 hstate
    obtain ⟨e, he⟩ := Option.isSome_iff_exists.mp hios
    have hmem := lookup_mem he
    obtain ⟨tS, htS, hrun⟩ := Hdet _ hmem
    obtain ⟨hvmem, hvstate⟩ := H2 _ hlink2 e he
    rw [htS] at hvmem
    have hvt : v = tS := List.mem_singleton.mp hvmem
    have hout : (e.runner item).2 = tS := hrun item
    have hvalid : (e.runner item).2 ∈ e.validOutputs := by
      rw [hout]
      unfold TaskEdge.validOutputs
      rw [htS]
      exact List.mem_append_left _ (List.mem_singleton.mpr rfl)
    have hcallEq : e.call item =
        ((e.runner item).1, Except.ok (e.runner item).2) := by
      simp only [TaskEdge.call]
      rw [if_pos hvalid]
    have hcall2 : (e.call item).2 = Except.ok tS := by
      rw [hcallEq, hout]
    have hpy : pyGet p ((2 * j + 1 : Nat) : Int) = some en := by
      unfold pyGet
      rw [if_pos (by omega)]
      rw [(by omega : ((2 * j + 1 : Nat) : Int).toNat = 2 * j + 1)]
      exact hen
    have hpy2 : pyGet p (((2 * j + 1 : Nat) : Int) + 1) = some v := by
      unfold pyGet
      rw [if_pos (by omega)]
      rw [(by omega :
        (((2 * j + 1 : Nat) : Int) + 1).toNat = 2 * j + 2)]
      exact hv
    have hguard : ((2 * j + 1 : Nat) : Int) < (p.length : Int) - 1 := by
      rw [hlen]
      push_cast
      omega
    have hidx : ((2 * j + 1 : Nat) : Int) + 2 =
        ((2 * (j + 1) + 1 : Nat) : Int) := by
      push_cast
      ring
    have hitem2cur :
        ({ (e.call item).1 with currState := tS } : Item P).currState =
          tS := rfl
    have hrec := ih (j + 1) fuel'
      ({ (e.call item).1 with currState := tS }) (count + 1)
      (by omega) (by omega)
      (by
        rw [hitem2cur, (by omega : 2 * (j + 1) = 2 * j + 2), ← hvt]
        exact hv)
      (by
        rw [hitem2cur, ← hvt]
        exact hvstate)
    obtain ⟨it2, hit2, hcur2⟩ := hrec
    refine ⟨it2, ?_, ?_⟩
    · rw [fixLoop, if_pos hguard]
      simp only [hpy, he, hcall2, hpy2]
      rw [if_pos hvt.symm]
      rw [hidx]
      rw [(by omega : count + 1 + m = count + (m + 1))] at hit2
      exact hit2
    · rw [(by omega : 2 * (j + (m + 1)) = 2 * ((j + 1) + m))]
      exact hcur2

/-- C3: in a graph of single-end-state edges with deterministic
handlers, an item whose planner path from its current to its desired
state has `2k` hops in the bipartite node graph is driven to
`currState = desiredState` by one `fixItems` call using exactly `k`
handler invocations. -/
theorem c3_deterministic_convergence {P : Type} (g : TaskGraph P)
    (fuel k : Nat) (itemID : String) (item : Item P)
    (Hdet : ∀ pr ∈ g.nodeAttr, ∃ t, pr.2.endStates = [t] ∧
      ∀ o : Item P, (pr.2.runner o).2 = t)
    (H1 : ∀ pr ∈ g.links, edgeLookup g pr.1 = none →
      (edgeLookup g pr.2).isSome = true)
    (H2 : ∀ pr ∈ g.links, ∀ e, edgeLookup g pr.1 = some e →
      pr.2 ∈ e.endStates ∧ edgeLookup g pr.2 = none)
    (Hdisc : g.discrepantItems = [itemID])
    (Hit : g.items.lookup itemID = some item)
    (Hstate : edgeLookup g item.currState = none)
    (p : List String)
    (Hbfs : bfs g item.currState item.desiredState = some p)
    (Hlen : p.length = 2 * k + 1) (Hfuel : k + 1 ≤ fuel) :
    ∃ it2, g.fixItems fuel = PassResult.ok (setItem g itemID it2) k ∧
      (setItem g itemID it2).items.lookup itemID = some it2 ∧
      it2.currState = item.desiredState := by
  obtain ⟨hhead, hlast, hchain⟩ := bfs_sound g _ _ p Hbfs
  have hcur0 : p.get? 0 = some item.currState := by
    rw [← head?_eq_get?_zero]
    exact hhead
  obtain ⟨it2, hloop, hcur⟩ :=
    fixLoop_det g item.currState item.desiredState Hdet H1 H2 p hchain
      k 0 fuel item 0 Hfuel (by omega) (by simpa using hcur0) Hstate
  have hcurD : it2.currState = item.desiredState := by
    rw [List.getLast?_eq_get?, Hlen,
      (by omega : 2 * k + 1 - 1 = 2 * k)] at hlast
    rw [(by omega : 2 * (0 + k) = 2 * k)] at hcur
    rw [hcur] at hlast
    exact Option.some.inj hlast
  have hloop' : fixLoop g item.currState item.desiredState fuel item p
      1 0 = LoopOut.ok it2 k := by
    have h1 : ((2 * 0 + 1 : Nat) : Int) = 1 := by norm_num
    rw [h1, (by omega : 0 + k = k)] at hloop
    exact hloop
  refine ⟨it2, ?_, lookup_replaceAt_self _ Hit, hcurD⟩
  unfold TaskGraph.fixItems
  rw [Hdisc]
  unfold fixItemsAux
  unfold processItem
  simp only [Hit, Hbfs, hloop']
  rw [fixItemsAux]

/-- C3 witness: the one-edge deterministic graph (`a --E--> b`, handler
always `b`) with item `x`: `k = 1`, one invocation, final state `b`. -/
theorem c3_deterministic_convergence_witness :
    ∃ it2,
      detGraph.fixItems 10 =
        PassResult.ok (setItem detGraph "x" it2) 1 ∧
      (setItem detGraph "x" it2).items.lookup "x" = some it2 ∧
      it2.currState = detItem.desiredState := by
  refine c3_deterministic_convergence detGraph 10 1 "x" detItem
    ?_ ?_ ?_ rfl rfl rfl ["a", "E", "b"] rfl (by norm_num) (by omega)
  · intro pr hpr
    simp only [show detGraph.nodeAttr = [("E", detEdge)] from rfl,
      List.mem_cons, List.not_mem_nil, or_false] at hpr
    subst hpr
    exact ⟨"b", rfl, fun o => rfl⟩
  · intro pr hpr
    simp only [show detGraph.links = [("a", "E"), ("E", "b")] from rfl,
      List.mem_cons, List.not_mem_nil, or_false] at hpr
    rcases hpr with rfl | rfl
    · intro h
      rfl
    · intro h
      exact Option.noConfusion
        ((show edgeLookup detGraph "E" = some detEdge from
          rfl).symm.trans h)
  · intro pr hpr
    simp only [show detGraph.links = [("a", "E"), ("E", "b")] from rfl,
      List.mem_cons, List.not_mem_nil, or_false] at hpr
    rcases hpr with rfl | rfl
    · intro e h
      exact Option.noConfusion
        ((show edgeLookup detGraph "a" = none from rfl).symm.trans h)
    · intro e h
      have he : detEdge = e := by
        have h2 := (show edgeLookup detGraph "E" = some detEdge from
          rfl).symm.trans h
        injection h2
      subst he
      exact ⟨by decide, rfl⟩

/-! ### Claim C10 -/

/-- C10: assuming every handler in the graph obeys the contract of
leaving `currState` and `desiredState` untouched, a `fixItems` pass
(whether it returns or escapes with an exception) never changes any
item's `desiredState`, and items outside the discrepant set at the
start of the pass keep their `currState` (indeed their whole entry)
unchanged. -/
theorem c10_fixItems_frame {P : Type} (g : TaskGraph P) (fuel : Nat)
    (g' : TaskGraph P) (c : Nat) (hframe : handlersFrame g)
    (h : g.fixItems fuel = PassResult.ok g' c ∨
      ∃ e, g.fixItems fuel = PassResult.raised g' c e) :
    (∀ id it, g.items.lookup id = some it →
      ∃ it', g'.items.lookup id = some it' ∧
        it'.desiredState = it.desiredState) ∧
    (∀ id it, id ∉ g.discrepantItems → g.items.lookup id = some it →
      ∃ it', g'.items.lookup id = some it' ∧
        it'.currState = it.currState ∧
        it'.desiredState = it.desiredState) := by
  have hpass : passGraph (g.fixItems fuel) = some g' := by
    rcases h with h | ⟨e, h⟩ <;> rw [h] <;> rfl
  unfold TaskGraph.fixItems at hpass
  obtain ⟨h1, h2⟩ := fixItemsAux_desired fuel g.discrepantItems g 0 g'
    hframe hpass
  refine ⟨h1, ?_⟩
  intro id it hnd hit
  rw [h2 id hnd]
  exact ⟨it, hit, rfl, rfl⟩

/-- C10 witness: on the end-to-end example, whose handlers obey the
contract, the pass preserves `item1`'s `desiredState`. -/
theorem c10_fixItems_frame_witness :
    ∃ it', afterFixEx.items.lookup "item1" = some it' ∧
      it'.desiredState = exItem.desiredState := by
  have hframe : handlersFrame exGraph := by
    intro pr hpr o
    simp only [show exGraph.nodeAttr =
        [("e1", exEdge1), ("e2", exEdge2), ("e3", exEdge3)] from rfl,
      List.mem_cons, List.not_mem_nil, or_false] at hpr
    rcases hpr with rfl | rfl | rfl
    · exact ⟨rfl, rfl⟩
    · exact ⟨rfl, rfl⟩
    · exact ⟨rfl, rfl⟩
  exact (c10_fixItems_frame exGraph 10 afterFixEx 3 hframe
    (Or.inl rfl)).1 "item1" exItem rfl

/-- C4 witness: the bogus-output edge raises and leaves the item at
state `a`, both at the edge level and inside the walk loop. -/
theorem c4_invalid_output_witness :
    badEdge.call badItem = (badItem,
      Except.error (TGError.invalidTransitionOutput "bogus")) ∧
    (badEdge.call badItem).1.currState = "a" ∧
    fixLoop (((TaskGraph.empty.addStates ["a", "b"]).addEdge badEdge).1)
        "a" "b" 3 badItem ["a", "EB", "b"] 1 0 =
      LoopOut.raised badItem 1
        (TGError.invalidTransitionOutput "bogus") := by
  have h := c4_invalid_output badEdge badItem rfl (by decide)
  refine ⟨h.1, h.2.1, ?_⟩
  exact (h.2.2 (((TaskGraph.empty.addStates ["a", "b"]).addEdge
    badEdge).1) "a" "b" 2 ["a", "EB", "b"] 1 0 "EB" rfl rfl
    (by decide)).1

end PGR


